import Mathlib

/-!
Shallow embedding of `main.go` of the purge-deps command line tool
(package purge-deps): a directory walker that, per directory, matches
manifest file names against an ordered list of cleanup tasks, runs the
first matching task's action, and afterwards (in non-dry mode) clears
global caches.  Effects (directory listings, stdout/stderr lines,
`os.RemoveAll` calls, external process invocations) are recorded in an
explicit event trace; the outside world (PATH lookups, RemoveAll
results, process exit statuses) is an explicit `World` parameter.
-/

/-- Result of a failed Go `os.RemoveAll` call, as far as the program can
observe it: `os.IsNotExist` distinguishes the `notExist` case. -/
inductive GoError where
  | notExist
  | permission
  | other (msg : String)
deriving DecidableEq

/-- Model of Go's `os.IsNotExist`. -/
def GoError.isNotExist : GoError → Bool
  | .notExist => true
  | _ => false

/-- One observable effect of the program. -/
inductive Event where
  | readDir (path : String)
  | stdout (line : String)
  | stderr (line : String)
  | removeAll (path : String)
  | exec (argv : List String) (dir : Option String)
deriving DecidableEq

/-- Errors the program's functions return (`error` values in the source,
each wrapped with context at its origin). -/
inductive AppError where
  | readDirFailed (path : String)
  | removeFailed (dir : String) (e : GoError)
  | cmdFailed (argv : List String)
deriving DecidableEq

/-- The outside world: PATH lookups, `os.RemoveAll` outcomes, external
command outcomes and captured output, directory readability, and the
`runtime.GOOS == "windows"` test. -/
structure World where
  lookPathOk : String → Bool
  removeAll : String → Option GoError
  cmdOk : List String → Option String → Bool
  cmdOutput : List String → Option String → String
  readDirOk : String → Bool
  isWindows : Bool

/-- A directory entry as `ioutil.ReadDir` reports it: a plain file, a
directory, or some other kind of entry (symbolic link, device file,
named pipe) — for which `FileInfo.IsDir()` is `false`, like for a plain
file. -/
inductive Entry where
  | file (name : String)
  | special (name : String)
  | dir (name : String) (children : List Entry)

/-- `FileInfo.Name()`. -/
def Entry.name : Entry → String
  | .file n => n
  | .special n => n
  | .dir n _ => n

/-- `FileInfo.IsDir()`: true exactly for directories. -/
def Entry.isDir : Entry → Bool
  | .dir _ _ => true
  | _ => false

/-- `filepath.Join(p, n)` (Unix separators, no cleaning needed for the
paths the walker builds). -/
def joinPath (p n : String) : String := p ++ "/" ++ n

/-- `filepath.Dir(p)`: everything before the last separator (computed on
the character list so that it evaluates by kernel reduction). -/
def dirName (p : String) : String :=
  ⟨(((p.data.reverse).dropWhile (fun c => !(c == '/'))).drop 1).reverse⟩

/-- `exec.Cmd.String()`: the command line as one space-separated string. -/
def cmdString : List String → String
  | [] => ""
  | [a] => a
  | a :: rest => a ++ " " ++ cmdString rest

/-- `strings.ToLower` (on the character list, ASCII case folding as
`Char.toLower`). -/
def toLowerStr (s : String) : String := ⟨s.data.map Char.toLower⟩

/-- `strings.HasSuffix` (on the character list). -/
def hasSuffixStr (s suffix : String) : Bool := suffix.data.isSuffixOf s.data

/-- `appName`: append `.exe` on windows. -/
def appName (w : World) (n : String) : String :=
  if w.isWindows then n ++ ".exe" else n

/-- Identifies a catalog entry (the Go source keeps them positionally in
one slice literal). -/
inductive TaskId where
  | composer
  | npm
  | cargo
  | dotnet
deriving DecidableEq

/-- The `runner` struct (which implements the `Task` interface): an
availability probe, a file-name predicate, and an action.  The action
returns the `error` result together with the effects it performed. -/
structure Runner where
  id : TaskId
  Available : World → Bool
  Matches : String → Bool
  Run : World → String → Option AppError × List Event

/-- The composer catalog entry: matches `composer.json`; its action
removes the sibling `vendor` directory.  The error check is embedded
exactly as written in the source:
`if err := os.RemoveAll(dir); err != nil && os.IsNotExist(err)`. -/
def composerRunner : Runner where
  id := .composer
  Available := fun w => w.lookPathOk "composer"
  Matches := fun s => s == "composer.json"
  Run := fun w path =>
    let dir := joinPath (dirName path) "vendor"
    match w.removeAll dir with
    | none => (none, [.removeAll dir])
    | some e =>
      if e.isNotExist then (some (.removeFailed dir e), [.removeAll dir])
      else (none, [.removeAll dir])

/-- The npm catalog entry: matches `package.json`; its action removes
the sibling `node_modules` directory, with the same error check as the
composer entry (embedded exactly as written in the source). -/
def npmRunner : Runner where
  id := .npm
  Available := fun w => w.lookPathOk "npm"
  Matches := fun s => s == "package.json"
  Run := fun w path =>
    let dir := joinPath (dirName path) "node_modules"
    match w.removeAll dir with
    | none => (none, [.removeAll dir])
    | some e =>
      if e.isNotExist then (some (.removeFailed dir e), [.removeAll dir])
      else (none, [.removeAll dir])

/-- The cargo catalog entry: matches `Cargo.toml` / `cargo.toml`; runs
`cargo clean` in the manifest's directory; a failure is returned as a
wrapped error. -/
def cargoRunner : Runner where
  id := .cargo
  Available := fun w => w.lookPathOk (appName w "cargo")
  Matches := fun s => s == "Cargo.toml" || s == "cargo.toml"
  Run := fun w path =>
    let argv := [appName w "cargo", "clean"]
    let d := some (dirName path)
    if w.cmdOk argv d then (none, [.exec argv d])
    else (some (.cmdFailed argv), [.exec argv d])

/-- The dotnet catalog entry: matches names ending (case-insensitively)
in `.csproj` or `.sln`; runs `dotnet clean --nologo` in the manifest's
directory; a failure is written to stderr with the captured output and
`nil` is returned. -/
def dotnetRunner : Runner where
  id := .dotnet
  Available := fun w => w.lookPathOk (appName w "dotnet")
  Matches := fun s =>
    hasSuffixStr (toLowerStr s) ".csproj" || hasSuffixStr (toLowerStr s) ".sln"
  Run := fun w path =>
    let argv := [appName w "dotnet", "clean", "--nologo"]
    let d := some (dirName path)
    if w.cmdOk argv d then (none, [.exec argv d])
    else
      (none, [.exec argv d,
        .stderr ("failed to run command " ++ cmdString argv ++ ": exit error\n"
          ++ w.cmdOutput argv d ++ "\n")])

/-- The fixed catalog, in source order. -/
def runners : List Runner := [composerRunner, npmRunner, cargoRunner, dotnetRunner]

/-- The print-only action every retained task's `run` is replaced with
when `--dry` is set. -/
def dryRunAction : World → String → Option AppError × List Event :=
  fun _ path => (none, [.stdout path])

/-- `main`'s task-list construction: replace every action with the
print-only stub when `dry` is set, then keep only the available
runners (in catalog order). -/
def buildTasks (w : World) (dry : Bool) : List Runner :=
  let rs := if dry then runners.map (fun r => { r with Run := dryRunAction }) else runners
  rs.filter (fun r => r.Available w)

/-- The inner loop of `Walk`'s first pass: the first task (in task-list
order) whose predicate accepts the file name. -/
def matchTask (tasks : List Runner) (name : String) : Option Runner :=
  tasks.find? (fun t => t.Matches name)

/-- `Walk`'s first pass: scan the entries in order, skip directories,
and return the first non-directory entry name some task matches,
together with that task. -/
def firstMatch (tasks : List Runner) : List Entry → Option (String × Runner)
  | [] => none
  | e :: rest =>
    if e.isDir then firstMatch tasks rest
    else
      match matchTask tasks e.name with
      | some t => some (e.name, t)
      | none => firstMatch tasks rest

mutual
/-- `Walk(path, tasks)`: list the directory; on the first file-level
match print the matched full path and run that task's action, finishing
the directory; otherwise recurse into each subdirectory, aborting on the
first error.  `entries` is what `ioutil.ReadDir path` yields (in
ReadDir's sorted order); `w.readDirOk` decides whether the listing
itself succeeds. -/
def Walk (w : World) (tasks : List Runner) (path : String) (entries : List Entry) :
    Option AppError × List Event :=
  if w.readDirOk path then
    match firstMatch tasks entries with
    | some (n, t) =>
      let p := joinPath path n
      let r := t.Run w p
      (r.1, .readDir path :: .stdout p :: r.2)
    | none =>
      let r := walkDirs w tasks path entries
      (r.1, .readDir path :: r.2)
  else (some (.readDirFailed path), [.readDir path])
termination_by (sizeOf entries, 1)

/-- `Walk`'s second pass: recurse into each directory entry in order,
returning the first error unchanged. -/
def walkDirs (w : World) (tasks : List Runner) (path : String) :
    List Entry → Option AppError × List Event
  | [] => (none, [])
  | .dir n cs :: rest =>
    match Walk w tasks (joinPath path n) cs with
    | (some e, evs) => (some e, evs)
    | (none, evs) =>
      let r := walkDirs w tasks path rest
      (r.1, evs ++ r.2)
  | .file _ :: rest => walkDirs w tasks path rest
  | .special _ :: rest => walkDirs w tasks path rest
termination_by l => (sizeOf l, 0)
end

/-- `clearCachesGo`: `go clean -cache`, `go clean -modcache`,
`go clean -testcache`, sequentially, failing fast. -/
def clearCachesGo (w : World) : Option AppError × List Event :=
  let c1 := [appName w "go", "clean", "-cache"]
  if w.cmdOk c1 none then
    let c2 := [appName w "go", "clean", "-modcache"]
    if w.cmdOk c2 none then
      let c3 := [appName w "go", "clean", "-testcache"]
      if w.cmdOk c3 none then (none, [.exec c1 none, .exec c2 none, .exec c3 none])
      else (some (.cmdFailed c3), [.exec c1 none, .exec c2 none, .exec c3 none])
    else (some (.cmdFailed c2), [.exec c1 none, .exec c2 none])
  else (some (.cmdFailed c1), [.exec c1 none])

/-- `clearCachesComposer`: `composer --no-interaction clear-cache`. -/
def clearCachesComposer (w : World) : Option AppError × List Event :=
  let c := ["composer", "--no-interaction", "clear-cache"]
  if w.cmdOk c none then (none, [.exec c none]) else (some (.cmdFailed c), [.exec c none])

/-- `clearCachesNpm`: `npm cache clean --force`. -/
def clearCachesNpm (w : World) : Option AppError × List Event :=
  let c := ["npm", "cache", "clean", "--force"]
  if w.cmdOk c none then (none, [.exec c none]) else (some (.cmdFailed c), [.exec c none])

/-- The standard-output lines of a trace, in order. -/
def stdoutLines (evs : List Event) : List String :=
  evs.filterMap fun ev =>
    match ev with
    | .stdout s => some s
    | _ => none

mutual
/-- Specification-side description of the matched/processed paths of a
traversal: the full path of the manifest the walker matches in each
directory it finishes, in traversal order, cut off where the traversal
aborts. -/
def processed (w : World) (tasks : List Runner) (path : String) (entries : List Entry) :
    List String :=
  if w.readDirOk path then
    match firstMatch tasks entries with
    | some (n, _) => [joinPath path n]
    | none => processedDirs w tasks path entries
  else []
termination_by (sizeOf entries, 1)

/-- The matched/processed paths contributed by the subdirectory pass,
cut off after a subdirectory whose walk returns an error. -/
def processedDirs (w : World) (tasks : List Runner) (path : String) :
    List Entry → List String
  | [] => []
  | .dir n cs :: rest =>
    match (Walk w tasks (joinPath path n) cs).1 with
    | some _ => processed w tasks (joinPath path n) cs
    | none => processed w tasks (joinPath path n) cs ++ processedDirs w tasks path rest
  | .file _ :: rest => processedDirs w tasks path rest
  | .special _ :: rest => processedDirs w tasks path rest
termination_by l => (sizeOf l, 0)
end

/-- Strict lexicographic order on character lists, the order in which
`ioutil.ReadDir` reports distinct file names. -/
def lexLt : List Char → List Char → Bool
  | [], [] => false
  | [], _ :: _ => true
  | _ :: _, [] => false
  | a :: as, b :: bs => if a < b then true else if b < a then false else lexLt as bs

/-- `ReadDir` name order on strings. -/
def nameLt (a b : String) : Bool := lexLt a.data b.data

/-- The entry list is strictly sorted by name, as `ioutil.ReadDir`
guarantees for the listing of one directory. -/
def sortedByName (entries : List Entry) : Prop :=
  List.Pairwise (fun a b => nameLt (Entry.name a) (Entry.name b) = true) entries

/-- Rendering of a wrapped error, as `%v` formats it. -/
def renderAppError : AppError → String
  | .readDirFailed p => "failed to read file entries of directory " ++ p
  | .removeFailed d _ => "failed to remove path " ++ d
  | .cmdFailed argv => "failed to run command " ++ cmdString argv

/-- `main` after flag/path parsing: build the task list (dry stubs, then
availability filter), bail out with exit code 2 when it is empty, walk,
and in non-dry mode run the three cache-clearing finalizers, each
guarded by an exit-code-1 bailout.  Returns the exit code and the event
trace. -/
def mainProg (w : World) (dry : Bool) (rootPath : String) (root : List Entry) :
    Nat × List Event :=
  let tasks := buildTasks w dry
  if tasks.isEmpty then
    (2, [.stderr "no valid package managers found (tried cargo, composer, npm)\n"])
  else
    match Walk w tasks rootPath root with
    | (some e, evs) =>
      (1, evs ++ [.stderr ("purging failed with an error: " ++ renderAppError e ++ "\n")])
    | (none, evs) =>
      if dry then (0, evs)
      else
        match clearCachesGo w with
        | (some e, cevs) =>
          (1, evs ++ cevs ++
            [.stderr ("purging go cache failed with an error: " ++ renderAppError e ++ "\n")])
        | (none, cevs) =>
          match clearCachesComposer w with
          | (some e, cevs2) =>
            (1, evs ++ cevs ++ cevs2 ++
              [.stderr ("purging composer cache failed with an error: "
                ++ renderAppError e ++ "\n")])
          | (none, cevs2) =>
            match clearCachesNpm w with
            | (some e, cevs3) =>
              (1, evs ++ cevs ++ cevs2 ++ cevs3 ++
                [.stderr ("purging npm cache failed with an error: "
                  ++ renderAppError e ++ "\n")])
            | (none, cevs3) => (0, evs ++ cevs ++ cevs2 ++ cevs3)

/-! ## Concrete worlds, fuel evaluator and finalizer model -/

/-- A benign world: every tool on PATH, every removal and command
succeeds, every directory listable, not windows. -/
def wBase : World where
  lookPathOk := fun _ => true
  removeAll := fun _ => none
  cmdOk := fun _ _ => true
  cmdOutput := fun _ _ => ""
  readDirOk := fun _ => true
  isWindows := false

/-- Only `npm` is on PATH. -/
def wNpmOnly : World := { wBase with lookPathOk := fun s => s == "npm" }

/-- Does an event mutate the filesystem or invoke an external
process? -/
def mutatesOrExecs : Event → Bool
  | .removeAll _ => true
  | .exec _ _ => true
  | _ => false

/-- Nothing is on the search path. -/
def wNoTools : World := { wBase with lookPathOk := fun _ => false }

/-- RemoveAll fails with a permission error everywhere. -/
def wPermFail : World := { wBase with removeAll := fun _ => some .permission }

/-- RemoveAll reports the target as already absent everywhere. -/
def wAbsent : World := { wBase with removeAll := fun _ => some .notExist }

/-- The second pass of the fuel evaluator, recursing through a given
walk function. -/
def walkDirsF (wk : String → List Entry → Option AppError × List Event) (path : String) :
    List Entry → Option AppError × List Event
  | [] => (none, [])
  | .dir n cs :: rest =>
    match wk (joinPath path n) cs with
    | (some e, evs) => (some e, evs)
    | (none, evs) =>
      let r := walkDirsF wk path rest
      (r.1, evs ++ r.2)
  | .file _ :: rest => walkDirsF wk path rest
  | .special _ :: rest => walkDirsF wk path rest

/-- `Walk` with an explicit fuel bound and plain structural recursion:
reduces by kernel computation, and equals `Walk` whenever the fuel
exceeds the tree size (`walkFuel_eq`). -/
def walkFuel (w : World) (tasks : List Runner) :
    Nat → String → List Entry → Option AppError × List Event
  | 0, _, _ => (none, [])
  | fuel + 1, path, entries =>
    if w.readDirOk path then
      match firstMatch tasks entries with
      | some (n, t) =>
        let p := joinPath path n
        let r := t.Run w p
        (r.1, .readDir path :: .stdout p :: r.2)
      | none =>
        let r := walkDirsF (walkFuel w tasks fuel) path entries
        (r.1, .readDir path :: r.2)
    else (some (.readDirFailed path), [.readDir path])

mutual
/-- Size of one entry (1 plus the sizes of a directory's children). -/
def sizeE : Entry → Nat
  | .file _ => 1
  | .special _ => 1
  | .dir _ cs => 1 + sizeL cs
/-- Total size of an entry list. -/
def sizeL : List Entry → Nat
  | [] => 0
  | e :: es => 1 + sizeE e + sizeL es
end

/-- `mainProg` with the fuel evaluator in place of `Walk`. -/
def mainProgF (fuel : Nat) (w : World) (dry : Bool) (rootPath : String)
    (root : List Entry) : Nat × List Event :=
  let tasks := buildTasks w dry
  if tasks.isEmpty then
    (2, [.stderr "no valid package managers found (tried cargo, composer, npm)\n"])
  else
    match walkFuel w tasks fuel rootPath root with
    | (some e, evs) =>
      (1, evs ++ [.stderr ("purging failed with an error: " ++ renderAppError e ++ "\n")])
    | (none, evs) =>
      if dry then (0, evs)
      else
        match clearCachesGo w with
        | (some e, cevs) =>
          (1, evs ++ cevs ++
            [.stderr ("purging go cache failed with an error: " ++ renderAppError e ++ "\n")])
        | (none, cevs) =>
          match clearCachesComposer w with
          | (some e, cevs2) =>
            (1, evs ++ cevs ++ cevs2 ++
              [.stderr ("purging composer cache failed with an error: "
                ++ renderAppError e ++ "\n")])
          | (none, cevs2) =>
            match clearCachesNpm w with
            | (some e, cevs3) =>
              (1, evs ++ cevs ++ cevs2 ++ cevs3 ++
                [.stderr ("purging npm cache failed with an error: "
                  ++ renderAppError e ++ "\n")])
            | (none, cevs3) => (0, evs ++ cevs ++ cevs2 ++ cevs3)

/-- `cargo clean` exits non-zero; everything else succeeds. -/
def wCargoFail : World :=
  { wBase with cmdOk := fun argv _ => !(argv == ["cargo", "clean"]) }

/-- Only `dotnet` is on PATH, `dotnet clean --nologo` exits non-zero
with captured output `MSB1003`, every other command succeeds. -/
def wDotnetFail : World :=
  { wBase with
    lookPathOk := fun s => s == "dotnet"
    cmdOk := fun argv _ => !(argv == ["dotnet", "clean", "--nologo"])
    cmdOutput := fun _ _ => "MSB1003" }

/-- The five global cache-clearing command lines, in the order the
source issues them. -/
def finalizerCmds (w : World) : List (List String) :=
  [[appName w "go", "clean", "-cache"],
   [appName w "go", "clean", "-modcache"],
   [appName w "go", "clean", "-testcache"],
   ["composer", "--no-interaction", "clear-cache"],
   ["npm", "cache", "clean", "--force"]]

/-- Fail-fast sequential execution of command lines, following the
spec's words for the cache-clearing phase: run each command in order;
on the first failure stop with that command's wrapped error; commands
after the first failure are never attempted. -/
def failFastSpec (w : World) : List (List String) → Option AppError × List Event
  | [] => (none, [])
  | c :: rest =>
    if w.cmdOk c none then
      let r := failFastSpec w rest
      (r.1, .exec c none :: r.2)
    else (some (.cmdFailed c), [.exec c none])

/-- The diagnostic prefix `main` prints when the cache-clearing phase
fails on a given command. -/
def finalizerPhaseMsg (c : List String) : String :=
  if c = ["composer", "--no-interaction", "clear-cache"] then
    "purging composer cache failed with an error: "
  else if c = ["npm", "cache", "clean", "--force"] then
    "purging npm cache failed with an error: "
  else "purging go cache failed with an error: "

/-! ## Unfolding lemmas for the traversal -/

lemma walk_matched (w : World) (tasks : List Runner) (path : String) (entries : List Entry)
    (n : String) (t : Runner) (hr : w.readDirOk path = true)
    (hm : firstMatch tasks entries = some (n, t)) :
    Walk w tasks path entries
      = ((t.Run w (joinPath path n)).1,
         .readDir path :: .stdout (joinPath path n) :: (t.Run w (joinPath path n)).2) := by
  rw [Walk]
  simp [hr, hm]

lemma walk_nomatch (w : World) (tasks : List Runner) (path : String) (entries : List Entry)
    (hr : w.readDirOk path = true) (hm : firstMatch tasks entries = none) :
    Walk w tasks path entries
      = ((walkDirs w tasks path entries).1,
         .readDir path :: (walkDirs w tasks path entries).2) := by
  rw [Walk]
  simp [hr, hm]

lemma walk_nolist (w : World) (tasks : List Runner) (path : String) (entries : List Entry)
    (hr : w.readDirOk path = false) :
    Walk w tasks path entries = (some (.readDirFailed path), [.readDir path]) := by
  rw [Walk]
  simp [hr]

lemma walkDirs_nil (w : World) (tasks : List Runner) (path : String) :
    walkDirs w tasks path [] = (none, []) := by
  rw [walkDirs]

lemma walkDirs_file (w : World) (tasks : List Runner) (path n : String) (rest : List Entry) :
    walkDirs w tasks path (.file n :: rest) = walkDirs w tasks path rest := by
  rw [walkDirs]

lemma walkDirs_special (w : World) (tasks : List Runner) (path n : String) (rest : List Entry) :
    walkDirs w tasks path (.special n :: rest) = walkDirs w tasks path rest := by
  rw [walkDirs]

lemma walkDirs_dir (w : World) (tasks : List Runner) (path n : String) (cs rest : List Entry) :
    walkDirs w tasks path (.dir n cs :: rest)
      = match Walk w tasks (joinPath path n) cs with
        | (some e, evs) => (some e, evs)
        | (none, evs) =>
          ((walkDirs w tasks path rest).1, evs ++ (walkDirs w tasks path rest).2) := by
  rw [walkDirs]

lemma processed_matched (w : World) (tasks : List Runner) (path : String) (entries : List Entry)
    (n : String) (t : Runner) (hr : w.readDirOk path = true)
    (hm : firstMatch tasks entries = some (n, t)) :
    processed w tasks path entries = [joinPath path n] := by
  rw [processed]
  simp [hr, hm]

lemma processed_nomatch (w : World) (tasks : List Runner) (path : String) (entries : List Entry)
    (hr : w.readDirOk path = true) (hm : firstMatch tasks entries = none) :
    processed w tasks path entries = processedDirs w tasks path entries := by
  rw [processed]
  simp [hr, hm]

lemma processed_nolist (w : World) (tasks : List Runner) (path : String) (entries : List Entry)
    (hr : w.readDirOk path = false) :
    processed w tasks path entries = [] := by
  rw [processed]
  simp [hr]

lemma processedDirs_nil (w : World) (tasks : List Runner) (path : String) :
    processedDirs w tasks path [] = [] := by
  rw [processedDirs]

lemma processedDirs_file (w : World) (tasks : List Runner) (path n : String)
    (rest : List Entry) :
    processedDirs w tasks path (.file n :: rest) = processedDirs w tasks path rest := by
  rw [processedDirs]

lemma processedDirs_special (w : World) (tasks : List Runner) (path n : String)
    (rest : List Entry) :
    processedDirs w tasks path (.special n :: rest) = processedDirs w tasks path rest := by
  rw [processedDirs]

lemma processedDirs_dir (w : World) (tasks : List Runner) (path n : String)
    (cs rest : List Entry) :
    processedDirs w tasks path (.dir n cs :: rest)
      = match (Walk w tasks (joinPath path n) cs).1 with
        | some _ => processed w tasks (joinPath path n) cs
        | none => processed w tasks (joinPath path n) cs ++ processedDirs w tasks path rest := by
  rw [processedDirs]

lemma firstMatch_mem {tasks : List Runner} :
    ∀ {entries : List Entry} {n : String} {t : Runner},
      firstMatch tasks entries = some (n, t) → t ∈ tasks := by
  intro entries
  induction entries with
  | nil => intro n t h; simp [firstMatch] at h
  | cons e rest ih =>
    intro n t h
    rw [firstMatch] at h
    split at h
    · exact ih h
    · cases hmt : matchTask tasks e.name with
      | none => rw [hmt] at h; exact ih h
      | some t2 =>
        rw [hmt] at h
        cases h
        exact List.mem_of_find?_eq_some hmt

/-! ## Standard-output and event lemmas -/

@[simp] lemma stdoutLines_nil : stdoutLines [] = [] := rfl

@[simp] lemma stdoutLines_readDir (p : String) (evs : List Event) :
    stdoutLines (.readDir p :: evs) = stdoutLines evs := rfl

@[simp] lemma stdoutLines_stdout (s : String) (evs : List Event) :
    stdoutLines (.stdout s :: evs) = s :: stdoutLines evs := rfl

@[simp] lemma stdoutLines_stderr (s : String) (evs : List Event) :
    stdoutLines (.stderr s :: evs) = stdoutLines evs := rfl

@[simp] lemma stdoutLines_removeAll (p : String) (evs : List Event) :
    stdoutLines (.removeAll p :: evs) = stdoutLines evs := rfl

@[simp] lemma stdoutLines_exec (a : List String) (d : Option String) (evs : List Event) :
    stdoutLines (.exec a d :: evs) = stdoutLines evs := rfl

@[simp] lemma stdoutLines_append (l l2 : List Event) :
    stdoutLines (l ++ l2) = stdoutLines l ++ stdoutLines l2 :=
  List.filterMap_append l l2 _

/-- The standard-output lines a walk produces: one block per processed
path, namely the path itself (printed by `Walk`) followed by whatever
the task's action prints for it. -/
lemma stdout_walk (w : World) (tasks : List Runner) (extra : String → List String)
    (hruns : ∀ t ∈ tasks, ∀ p, stdoutLines (t.Run w p).2 = extra p)
    (path : String) (entries : List Entry) :
    stdoutLines (Walk w tasks path entries).2
      = (processed w tasks path entries).flatMap (fun p => p :: extra p) := by
  refine Walk.induct w tasks
    (fun path entries => stdoutLines (Walk w tasks path entries).2
      = (processed w tasks path entries).flatMap (fun p => p :: extra p))
    (fun path l => stdoutLines (walkDirs w tasks path l).2
      = (processedDirs w tasks path l).flatMap (fun p => p :: extra p))
    ?_ ?_ ?_ ?_ ?_ ?_ ?_ ?_ path entries
  · intro path entries hr n t hm
    rw [walk_matched w tasks path entries n t hr hm,
      processed_matched w tasks path entries n t hr hm]
    simp [hruns t (firstMatch_mem hm) (joinPath path n)]
  · intro path entries hr hm ih
    rw [walk_nomatch w tasks path entries hr hm,
      processed_nomatch w tasks path entries hr hm]
    simpa using ih
  · intro path entries hr
    rw [walk_nolist w tasks path entries (by simpa using hr),
      processed_nolist w tasks path entries (by simpa using hr)]
    simp
  · intro path
    simp [walkDirs_nil, processedDirs_nil]
  · intro path n cs rest e evs hw ih
    rw [walkDirs_dir, processedDirs_dir, hw]
    rw [hw] at ih
    simpa using ih
  · intro path n cs rest evs hw ih1 ih2
    rw [walkDirs_dir, processedDirs_dir, hw]
    rw [hw] at ih1
    simp [ih1, ih2]
  · intro path n rest ih
    rw [walkDirs_file, processedDirs_file]; exact ih
  · intro path n rest ih
    rw [walkDirs_special, processedDirs_special]; exact ih

/-- Every event of a walk's trace is a directory listing, a printed
line, or an event of some task's action. -/
lemma walk_events (w : World) (tasks : List Runner) (P : Event → Prop)
    (hrd : ∀ p, P (.readDir p)) (hout : ∀ s, P (.stdout s))
    (hruns : ∀ t ∈ tasks, ∀ p, ∀ ev ∈ (t.Run w p).2, P ev)
    (path : String) (entries : List Entry) :
    ∀ ev ∈ (Walk w tasks path entries).2, P ev := by
  refine Walk.induct w tasks
    (fun path entries => ∀ ev ∈ (Walk w tasks path entries).2, P ev)
    (fun path l => ∀ ev ∈ (walkDirs w tasks path l).2, P ev)
    ?_ ?_ ?_ ?_ ?_ ?_ ?_ ?_ path entries
  · intro path entries hr n t hm
    rw [walk_matched w tasks path entries n t hr hm]
    intro ev hev
    rcases hev with _ | ⟨_, hev⟩
    · exact hrd path
    rcases hev with _ | ⟨_, hev⟩
    · exact hout _
    exact hruns t (firstMatch_mem hm) _ ev hev
  · intro path entries hr hm ih
    rw [walk_nomatch w tasks path entries hr hm]
    intro ev hev
    rcases hev with _ | ⟨_, hev⟩
    · exact hrd path
    exact ih ev hev
  · intro path entries hr
    rw [walk_nolist w tasks path entries (by simpa using hr)]
    intro ev hev
    rcases hev with _ | ⟨_, hev⟩
    · exact hrd path
    cases hev
  · intro path ev hev
    rw [walkDirs_nil] at hev
    cases hev
  · intro path n cs rest e evs hw ih ev hev
    rw [walkDirs_dir, hw] at hev
    rw [hw] at ih
    exact ih ev hev
  · intro path n cs rest evs hw ih1 ih2 ev hev
    rw [walkDirs_dir, hw] at hev
    rw [hw] at ih1
    rcases List.mem_append.mp hev with h | h
    · exact ih1 ev h
    · exact ih2 ev h
  · intro path n rest ih ev hev
    rw [walkDirs_file] at hev
    exact ih ev hev
  · intro path n rest ih ev hev
    rw [walkDirs_special] at hev
    exact ih ev hev

lemma buildTasks_false_mem (w : World) (t : Runner) (ht : t ∈ buildTasks w false) :
    t ∈ runners := by
  simp [buildTasks] at ht
  exact ht.1

lemma buildTasks_dry_run (w : World) (t : Runner) (ht : t ∈ buildTasks w true) :
    t.Run = dryRunAction := by
  simp [buildTasks] at ht
  obtain ⟨⟨r, hr, rfl⟩, h2⟩ := ht
  rfl
lemma runners_run_no_stdout (t : Runner) (ht : t ∈ runners) (w : World) (p : String) :
    stdoutLines (t.Run w p).2 = [] := by
  have hcases : t = composerRunner ∨ t = npmRunner ∨ t = cargoRunner ∨ t = dotnetRunner := by
    simpa [runners] using ht
  rcases hcases with rfl | rfl | rfl | rfl
  · simp only [composerRunner]
    cases h : w.removeAll (joinPath (dirName p) "vendor") with
    | none => simp [h]
    | some e => by_cases he : e.isNotExist <;> simp [h, he]
  · simp only [npmRunner]
    cases h : w.removeAll (joinPath (dirName p) "node_modules") with
    | none => simp [h]
    | some e => by_cases he : e.isNotExist <;> simp [h, he]
  · simp only [cargoRunner]
    by_cases h : w.cmdOk [appName w "cargo", "clean"] (some (dirName p)) <;> simp [h]
  · simp only [dotnetRunner]
    by_cases h : w.cmdOk [appName w "dotnet", "clean", "--nologo"] (some (dirName p)) <;>
      simp [h]

lemma firstMatch_nilTasks (entries : List Entry) : firstMatch [] entries = none := by
  induction entries with
  | nil => rw [firstMatch]
  | cons e rest ih =>
    rw [firstMatch]
    simp [matchTask, ih]

lemma processed_nilTasks (w : World) (path : String) (entries : List Entry) :
    processed w [] path entries = [] := by
  refine processed.induct w []
    (fun path entries => processed w [] path entries = [])
    (fun path l => processedDirs w [] path l = [])
    ?_ ?_ ?_ ?_ ?_ ?_ ?_ ?_ path entries
  · intro path entries hr n t hm
    rw [firstMatch_nilTasks] at hm
    cases hm
  · intro path entries hr hm ih
    rw [processed_nomatch w [] path entries hr hm]
    exact ih
  · intro path entries hr
    exact processed_nolist w [] path entries (by simpa using hr)
  · intro path
    exact processedDirs_nil w [] path
  · intro path n cs rest e heq ih
    rw [processedDirs_dir, heq]
    exact ih
  · intro path n cs rest heq ih1 ih2
    rw [processedDirs_dir, heq]
    simp [ih1, ih2]
  · intro path n rest ih
    rw [processedDirs_file]; exact ih
  · intro path n rest ih
    rw [processedDirs_special]; exact ih

lemma clearCachesGo_no_stdout (w : World) : stdoutLines (clearCachesGo w).2 = [] := by
  simp only [clearCachesGo]
  split_ifs <;> simp

lemma clearCachesComposer_no_stdout (w : World) :
    stdoutLines (clearCachesComposer w).2 = [] := by
  simp only [clearCachesComposer]
  split_ifs <;> simp

lemma clearCachesNpm_no_stdout (w : World) : stdoutLines (clearCachesNpm w).2 = [] := by
  simp only [clearCachesNpm]
  split_ifs <;> simp
lemma mainProg_stdout (w : World) (dry : Bool) (rootPath : String) (root : List Entry)
    (hne : (buildTasks w dry).isEmpty = false) :
    stdoutLines (mainProg w dry rootPath root).2
      = stdoutLines (Walk w (buildTasks w dry) rootPath root).2 := by
  unfold mainProg
  simp only [hne, Bool.false_eq_true, if_false]
  cases hW : Walk w (buildTasks w dry) rootPath root with
  | mk o evs =>
    cases o with
    | some e => simp
    | none =>
      cases dry with
      | true => simp
      | false =>
        have hg0 := clearCachesGo_no_stdout w
        have hc0 := clearCachesComposer_no_stdout w
        have hn0 := clearCachesNpm_no_stdout w
        cases hg : clearCachesGo w with
        | mk og gevs =>
          rw [hg] at hg0
          cases og with
          | some e => simp [hg0]
          | none =>
            cases hc : clearCachesComposer w with
            | mk oc cevs =>
              rw [hc] at hc0
              cases oc with
              | some e => simp [hg0, hc0]
              | none =>
                cases hn : clearCachesNpm w with
                | mk onpm nevs =>
                  rw [hn] at hn0
                  cases onpm with
                  | some e => simp [hg0, hc0, hn0]
                  | none => simp [hg0, hc0, hn0]

lemma mainProg_stdout_empty (w : World) (dry : Bool) (rootPath : String) (root : List Entry)
    (hne : (buildTasks w dry).isEmpty = true) :
    stdoutLines (mainProg w dry rootPath root).2 = [] := by
  unfold mainProg
  simp [hne]

/-- C2 (corrected): the standard-output lines of an invocation are
exactly the matched/processed paths — once each in non-dry mode, but
twice each in dry mode (`Walk` prints the matched path and the dry-run
stub prints it again); nothing else is ever written to standard
output. -/
theorem stdout_lines_match_processed (w : World) (rootPath : String) (root : List Entry) :
    stdoutLines (mainProg w false rootPath root).2
      = processed w (buildTasks w false) rootPath root ∧
    stdoutLines (mainProg w true rootPath root).2
      = (processed w (buildTasks w true) rootPath root).flatMap (fun p => [p, p]) := by
  constructor
  · cases hne : (buildTasks w false).isEmpty with
    | true =>
      have hnil : buildTasks w false = [] := List.isEmpty_iff.mp hne
      rw [mainProg_stdout_empty w false rootPath root hne, hnil,
        processed_nilTasks w rootPath root]
    | false =>
      rw [mainProg_stdout w false rootPath root hne,
        stdout_walk w (buildTasks w false) (fun _ => [])
          (fun t ht p => runners_run_no_stdout t (buildTasks_false_mem w t ht) w p)
          rootPath root]
      simp
  · cases hne : (buildTasks w true).isEmpty with
    | true =>
      have hnil : buildTasks w true = [] := List.isEmpty_iff.mp hne
      rw [mainProg_stdout_empty w true rootPath root hne, hnil,
        processed_nilTasks w rootPath root]
      simp
    | false =>
      rw [mainProg_stdout w true rootPath root hne,
        stdout_walk w (buildTasks w true) (fun p => [p])
          (fun t ht p => by rw [buildTasks_dry_run w t ht]; simp [dryRunAction])
          rootPath root]
/-! ## Concrete worlds for witnesses and counterexamples -/

/-- C2 counterexample: in dry mode with npm available, a directory whose
single entry is the file `package.json` yields the matched path twice on
standard output — not exactly one line per matched/processed path. -/
theorem dry_mode_prints_twice_cex :
    stdoutLines (mainProg wNpmOnly true "/r" [.file "package.json"]).2
      = ["/r/package.json", "/r/package.json"] ∧
    processed wNpmOnly (buildTasks wNpmOnly true) "/r" [.file "package.json"]
      = ["/r/package.json"] ∧
    stdoutLines (mainProg wNpmOnly true "/r" [.file "package.json"]).2
      ≠ ["/r/package.json"] := by
  refine ⟨?_, ?_, ?_⟩ <;>
    simp [mainProg, buildTasks, runners, composerRunner, npmRunner, cargoRunner,
      dotnetRunner, appName, wNpmOnly, wBase, Walk, walkDirs, firstMatch, matchTask,
      Entry.isDir, Entry.name, List.find?, List.filter, processed, processedDirs,
      dryRunAction, stdoutLines, toLowerStr, hasSuffixStr, List.isSuffixOf,
      List.isPrefixOf, joinPath]
/-- C7 (confirmed): in dry-run mode no event of the whole invocation
removes anything or invokes an external process (every retained task's
action is the print-only stub), and after a clean traversal the
cache-clearing phase is skipped entirely: the program ends with exit
code 0 and the traversal's trace alone. -/
theorem dry_mode_no_mutation (w : World) (rootPath : String) (root : List Entry) :
    (∀ ev ∈ (mainProg w true rootPath root).2, mutatesOrExecs ev = false) ∧
    ((buildTasks w true).isEmpty = false →
      ∀ evs, Walk w (buildTasks w true) rootPath root = (none, evs) →
        mainProg w true rootPath root = (0, evs)) := by
  have hwalk := walk_events w (buildTasks w true) (fun ev => mutatesOrExecs ev = false)
    (fun p => rfl) (fun s => rfl)
    (fun t ht p ev hev2 => by
      rw [buildTasks_dry_run w t ht] at hev2
      simp [dryRunAction] at hev2
      subst hev2; rfl)
    rootPath root
  constructor
  · intro ev hev
    unfold mainProg at hev
    cases hne : (buildTasks w true).isEmpty with
    | true =>
      simp [hne] at hev
      subst hev; rfl
    | false =>
      simp only [hne, Bool.false_eq_true, if_false] at hev
      cases hW : Walk w (buildTasks w true) rootPath root with
      | mk o evs =>
        rw [hW] at hev
        rw [hW] at hwalk
        cases o with
        | some e =>
          simp at hev
          rcases hev with h | h
          · exact hwalk ev h
          · subst h; rfl
        | none =>
          simp at hev
          exact hwalk ev hev
  · intro hne evs hW
    unfold mainProg
    simp [hne, hW]
/-- Witness for C7 at a concrete world and tree. -/
theorem dry_mode_no_mutation_witness :
    mainProg wNpmOnly true "/r" [.file "package.json"]
      = (0, [.readDir "/r", .stdout "/r/package.json", .stdout "/r/package.json"]) ∧
    mutatesOrExecs (.readDir "/r") = false := by
  constructor
  · exact (dry_mode_no_mutation wNpmOnly "/r" [.file "package.json"]).2
      (by simp [buildTasks, runners, wNpmOnly, wBase, composerRunner, npmRunner,
        cargoRunner, dotnetRunner, appName, List.filter])
      [.readDir "/r", .stdout "/r/package.json", .stdout "/r/package.json"]
      (by simp [Walk, walkDirs, firstMatch, matchTask, Entry.isDir, Entry.name,
        buildTasks, runners, wNpmOnly, wBase, composerRunner, npmRunner, cargoRunner,
        dotnetRunner, appName, List.filter, List.find?, dryRunAction, joinPath,
        toLowerStr, hasSuffixStr, List.isSuffixOf, List.isPrefixOf])
  · exact (dry_mode_no_mutation wNpmOnly "/r" [.file "package.json"]).1 (.readDir "/r")
      (by simp [mainProg, Walk, walkDirs, firstMatch, matchTask, Entry.isDir, Entry.name,
        buildTasks, runners, wNpmOnly, wBase, composerRunner, npmRunner, cargoRunner,
        dotnetRunner, appName, List.filter, List.find?, dryRunAction, joinPath,
        toLowerStr, hasSuffixStr, List.isSuffixOf, List.isPrefixOf])

/-- C9 (confirmed): when none of the four required tools is on the
search path, the program reports to standard error and exits with the
usage/configuration code 2, and its trace holds no directory listing —
`Walk` is never invoked. -/
theorem no_tasks_exits_before_walk (w : World) (dry : Bool) (rootPath : String)
    (root : List Entry)
    (hc : w.lookPathOk "composer" = false) (hn : w.lookPathOk "npm" = false)
    (hcg : w.lookPathOk (appName w "cargo") = false)
    (hd : w.lookPathOk (appName w "dotnet") = false) :
    mainProg w dry rootPath root
      = (2, [.stderr "no valid package managers found (tried cargo, composer, npm)\n"]) ∧
    ∀ q, Event.readDir q ∉ (mainProg w dry rootPath root).2 := by
  have hnil : buildTasks w dry = [] := by
    cases dry <;>
      simp [buildTasks, runners, composerRunner, npmRunner, cargoRunner, dotnetRunner,
        List.filter, hc, hn, hcg, hd]
  have hmain : mainProg w dry rootPath root
      = (2, [.stderr "no valid package managers found (tried cargo, composer, npm)\n"]) := by
    unfold mainProg
    simp [hnil]
  refine ⟨hmain, ?_⟩
  intro q hq
  rw [hmain] at hq
  simp at hq

/-- Witness for C9 at a concrete world: all four availability probes
fail, the exit code is 2 and the root directory is never listed. -/
theorem no_tasks_exits_before_walk_witness :
    mainProg wNoTools false "/r" [.dir "a" [.file "package.json"]]
      = (2, [.stderr "no valid package managers found (tried cargo, composer, npm)\n"]) ∧
    Event.readDir "/r" ∉ (mainProg wNoTools false "/r" [.dir "a" [.file "package.json"]]).2 := by
  have h := no_tasks_exits_before_walk wNoTools false "/r" [.dir "a" [.file "package.json"]]
    rfl rfl rfl rfl
  exact ⟨h.1, h.2 "/r"⟩
/-- C1 (code bug): the composer and npm actions return no error when the
sibling-cache removal fails with a real error (permission denied), and
return the wrapped failure exactly when the error is the tolerated
`already absent` one: the source's `err != nil && os.IsNotExist(err)`
check inverts the intended `!os.IsNotExist(err)`. -/
theorem run_swallows_removal_errors :
    (composerRunner.Run wPermFail "/p/composer.json").1 = none ∧
    (npmRunner.Run wPermFail "/p/package.json").1 = none ∧
    (composerRunner.Run wAbsent "/p/composer.json").1
      = some (.removeFailed "/p/vendor" .notExist) ∧
    (npmRunner.Run wAbsent "/p/package.json").1
      = some (.removeFailed "/p/node_modules" .notExist) :=
  ⟨rfl, rfl, rfl, rfl⟩

/-- C3 counterexample: an entry that is neither a plain file nor a
directory (a symbolic link, say) named `composer.json` IS tested against
the match predicates and matches: the walk prints its path and fires the
composer action on it. -/
theorem special_entry_matched_cex :
    Walk wBase [composerRunner] "/r" [.special "composer.json"]
      = (none, [.readDir "/r", .stdout "/r/composer.json", .removeAll "/r/vendor"]) ∧
    stdoutLines (Walk wBase [composerRunner] "/r" [.special "composer.json"]).2 ≠ [] := by
  have h : Walk wBase [composerRunner] "/r" [.special "composer.json"]
      = (none, [.readDir "/r", .stdout "/r/composer.json", .removeAll "/r/vendor"]) := by
    simp [Walk, walkDirs, firstMatch, matchTask, Entry.isDir, Entry.name, List.find?,
      composerRunner, wBase, joinPath, dirName]
  refine ⟨h, ?_⟩
  rw [h]
  simp

/-- C3 (amended): an entry that is not a plain directory and not a plain
file is treated by `Walk` exactly like a plain file of the same name: it
IS tested against every task's predicate in the first pass (and can be
matched), and — like a plain file — it is never descended into by the
second pass. -/
theorem special_treated_as_file (w : World) (tasks : List Runner) (path n : String)
    (rest : List Entry) :
    Walk w tasks path (.special n :: rest) = Walk w tasks path (.file n :: rest) ∧
    walkDirs w tasks path (.special n :: rest) = walkDirs w tasks path rest := by
  constructor
  · rw [Walk, Walk]
    simp only [firstMatch, Entry.isDir, Entry.name, walkDirs_special, walkDirs_file]
  · exact walkDirs_special w tasks path n rest

/-- C4 (confirmed): as soon as some task matches a non-directory entry
of the listed directory, the walk of that directory is exactly: print
the matched full path, run that one task, stop — no further event comes
from this directory, no other task fires, and no subdirectory is ever
listed. -/
theorem first_match_finishes_directory (w : World) (tasks : List Runner) (path : String)
    (entries : List Entry) (n : String) (t : Runner)
    (hr : w.readDirOk path = true) (hm : firstMatch tasks entries = some (n, t)) :
    Walk w tasks path entries
      = ((t.Run w (joinPath path n)).1,
         .readDir path :: .stdout (joinPath path n) :: (t.Run w (joinPath path n)).2) :=
  walk_matched w tasks path entries n t hr hm

/-- Witness for C4: a directory holding `composer.json`, `package.json`
and a subdirectory is finished after the composer action alone — the
subdirectory is never listed, the npm task never fires. -/
theorem first_match_finishes_directory_witness :
    Walk wBase (buildTasks wBase false) "/r"
        [.file "composer.json", .file "package.json", .dir "sub" [.file "package.json"]]
      = (none, [.readDir "/r", .stdout "/r/composer.json", .removeAll "/r/vendor"]) := by
  have h := first_match_finishes_directory wBase (buildTasks wBase false) "/r"
    [.file "composer.json", .file "package.json", .dir "sub" [.file "package.json"]]
    "composer.json" composerRunner rfl
    (by simp [firstMatch, matchTask, Entry.isDir, Entry.name, List.find?, buildTasks,
      runners, composerRunner, npmRunner, cargoRunner, dotnetRunner, appName, wBase,
      List.filter])
  rw [h]
  simp [composerRunner, wBase, joinPath, dirName]
/-! ## A fuel-indexed evaluator for the traversal

`Walk` is defined by well-founded recursion and therefore does not
reduce by kernel computation; `walkFuel` is the same function with an
explicit fuel bound and plain structural recursion, proved equal to
`Walk` whenever the fuel exceeds the tree size.  Concrete runs are
evaluated through it. -/

lemma walkDirsF_eq (w : World) (tasks : List Runner) (f : Nat)
    (hf : ∀ path cs, sizeL cs < f → walkFuel w tasks f path cs = Walk w tasks path cs) :
    ∀ (l : List Entry) (path : String), sizeL l ≤ f →
      walkDirsF (walkFuel w tasks f) path l = walkDirs w tasks path l := by
  intro l
  induction l with
  | nil => intro path _; rw [walkDirsF, walkDirs_nil]
  | cons e rest ihl =>
    intro path hle
    cases e with
    | file n =>
      rw [walkDirsF, walkDirs_file]
      exact ihl path (by simp [sizeL, sizeE] at hle ⊢; omega)
    | special n =>
      rw [walkDirsF, walkDirs_special]
      exact ihl path (by simp [sizeL, sizeE] at hle ⊢; omega)
    | dir n cs =>
      rw [walkDirsF, walkDirs_dir,
        hf (joinPath path n) cs (by simp [sizeL, sizeE] at hle ⊢; omega)]
      cases hW : Walk w tasks (joinPath path n) cs with
      | mk o evs =>
        cases o with
        | some e => rfl
        | none =>
          have hrest := ihl path (by simp [sizeL, sizeE] at hle ⊢; omega)
          simp [hrest]

lemma walkFuel_eq (w : World) (tasks : List Runner) :
    ∀ (fuel : Nat) (path : String) (entries : List Entry), sizeL entries < fuel →
      walkFuel w tasks fuel path entries = Walk w tasks path entries := by
  intro fuel
  induction fuel with
  | zero => intro path entries h; omega
  | succ f ih =>
    intro path entries h
    by_cases hr : w.readDirOk path
    · cases hm : firstMatch tasks entries with
      | some nt =>
        obtain ⟨n, t⟩ := nt
        rw [walk_matched w tasks path entries n t hr hm]
        simp [walkFuel, hr, hm]
      | none =>
        rw [walk_nomatch w tasks path entries hr hm]
        simp only [walkFuel, hr, hm, if_true]
        rw [walkDirsF_eq w tasks f (fun p cs hcs => ih p cs hcs) entries path (by omega)]
    · rw [walk_nolist w tasks path entries (by simpa using hr)]
      simp [walkFuel, hr]

/-- Evaluate a concrete walk through the fuel evaluator. -/
lemma walk_eval (w : World) (tasks : List Runner) (path : String) (entries : List Entry)
    (fuel : Nat) (h : sizeL entries < fuel) :
    Walk w tasks path entries = walkFuel w tasks fuel path entries :=
  (walkFuel_eq w tasks fuel path entries h).symm

/-- Evaluate a concrete program run through the fuel evaluator. -/
lemma mainProg_eval (fuel : Nat) (w : World) (dry : Bool) (rootPath : String)
    (root : List Entry) (h : sizeL root < fuel) :
    mainProg w dry rootPath root = mainProgF fuel w dry rootPath root := by
  unfold mainProg mainProgF
  simp only [walkFuel_eq w (buildTasks w dry) fuel rootPath root h]
/-- C10 (confirmed): in a directory where a file matches, the matched
full path is the first printed line of that directory's trace, placed
before any event of the task's action — so when the action then fails,
the walk returns that error with the path already emitted. -/
theorem matched_path_printed_before_run_error (w : World) (tasks : List Runner)
    (path : String) (entries : List Entry) (n : String) (t : Runner) (err : AppError)
    (hr : w.readDirOk path = true) (hm : firstMatch tasks entries = some (n, t))
    (he : (t.Run w (joinPath path n)).1 = some err) :
    (Walk w tasks path entries).1 = some err ∧
    (Walk w tasks path entries).2
      = .readDir path :: .stdout (joinPath path n) :: (t.Run w (joinPath path n)).2 ∧
    Event.stdout (joinPath path n) ∈ (Walk w tasks path entries).2 := by
  rw [walk_matched w tasks path entries n t hr hm]
  exact ⟨he, rfl, by simp⟩

/-- Witness for C10: with a failing `cargo clean`, the walk returns the
wrapped command failure and the matched path was printed anyway. -/
theorem matched_path_printed_before_run_error_witness :
    (Walk wCargoFail [cargoRunner] "/r" [.file "Cargo.toml"]).1
      = some (.cmdFailed ["cargo", "clean"]) ∧
    Event.stdout "/r/Cargo.toml"
      ∈ (Walk wCargoFail [cargoRunner] "/r" [.file "Cargo.toml"]).2 := by
  have h := matched_path_printed_before_run_error wCargoFail [cargoRunner] "/r"
    [.file "Cargo.toml"] "Cargo.toml" cargoRunner (.cmdFailed ["cargo", "clean"])
    rfl rfl rfl
  exact ⟨h.1, h.2.2⟩

/-- C6 (confirmed): a non-zero `dotnet clean --nologo` exit makes the
dotnet action write the failure and its captured output to standard
error and return no error; consequently a run over a tree with two
dotnet projects whose cleans both fail still traverses both and
completes with exit code 0. -/
theorem dotnet_failure_tolerated (w : World) (path : String)
    (h : w.cmdOk [appName w "dotnet", "clean", "--nologo"] (some (dirName path)) = false) :
    dotnetRunner.Run w path
      = (none,
         [.exec [appName w "dotnet", "clean", "--nologo"] (some (dirName path)),
          .stderr ("failed to run command "
            ++ cmdString [appName w "dotnet", "clean", "--nologo"] ++ ": exit error\n"
            ++ w.cmdOutput [appName w "dotnet", "clean", "--nologo"] (some (dirName path))
            ++ "\n")]) ∧
    (mainProg wDotnetFail false "/r"
        [.dir "a" [.file "app.csproj"], .dir "b" [.file "lib.sln"]]).1 = 0 ∧
    stdoutLines (mainProg wDotnetFail false "/r"
        [.dir "a" [.file "app.csproj"], .dir "b" [.file "lib.sln"]]).2
      = ["/r/a/app.csproj", "/r/b/lib.sln"] ∧
    Event.stderr "failed to run command dotnet clean --nologo: exit error\nMSB1003\n"
      ∈ (mainProg wDotnetFail false "/r"
          [.dir "a" [.file "app.csproj"], .dir "b" [.file "lib.sln"]]).2 := by
  have he := mainProg_eval 10 wDotnetFail false "/r"
    [.dir "a" [.file "app.csproj"], .dir "b" [.file "lib.sln"]] (by decide)
  refine ⟨?_, ?_, ?_, ?_⟩
  · simp only [dotnetRunner, h]
    simp
  · rw [he]
    decide
  · rw [he]
    decide
  · rw [he]
    decide
/-- Witness for C6 at a concrete world and path. -/
theorem dotnet_failure_tolerated_witness :
    dotnetRunner.Run wDotnetFail "/r/a/app.csproj"
      = (none, [.exec ["dotnet", "clean", "--nologo"] (some "/r/a"),
         .stderr "failed to run command dotnet clean --nologo: exit error\nMSB1003\n"]) := by
  have h := (dotnet_failure_tolerated wDotnetFail "/r/a/app.csproj" rfl).1
  exact h.trans (by decide)

/-- With the composer and npm tasks, any strictly name-sorted entry list
containing the file `composer.json` is matched at `composer.json` by the
composer task: no entry before it can match either task. -/
lemma firstMatch_sorted_composer :
    ∀ (entries : List Entry), sortedByName entries →
      Entry.file "composer.json" ∈ entries →
      firstMatch [composerRunner, npmRunner] entries
        = some ("composer.json", composerRunner) := by
  intro entries
  induction entries with
  | nil => intro _ hc; cases hc
  | cons e rest ih =>
    intro hs hc
    rcases List.pairwise_cons.mp hs with ⟨hall, hrest⟩
    rcases List.mem_cons.mp hc with heq | hc2
    · rw [← heq]
      rfl
    · have hlt : nameLt (Entry.name e) "composer.json" = true := by
        simpa [Entry.name] using hall _ hc2
      cases e with
      | dir n cs =>
        rw [firstMatch]
        simpa [Entry.isDir] using ih hrest hc2
      | file m =>
        have hm1 : (m == "composer.json") = false := by
          by_cases h : m = "composer.json"
          · subst h; exact absurd hlt (by decide)
          · simp [h]
        have hm2 : (m == "package.json") = false := by
          by_cases h : m = "package.json"
          · subst h; exact absurd hlt (by decide)
          · simp [h]
        rw [firstMatch]
        simp only [Entry.isDir, Entry.name, matchTask, List.find?, composerRunner,
          npmRunner, hm1, hm2, Bool.false_eq_true, if_false]
        exact ih hrest hc2
      | special m =>
        have hm1 : (m == "composer.json") = false := by
          by_cases h : m = "composer.json"
          · subst h; exact absurd hlt (by decide)
          · simp [h]
        have hm2 : (m == "package.json") = false := by
          by_cases h : m = "package.json"
          · subst h; exact absurd hlt (by decide)
          · simp [h]
        rw [firstMatch]
        simp only [Entry.isDir, Entry.name, matchTask, List.find?, composerRunner,
          npmRunner, hm1, hm2, Bool.false_eq_true, if_false]
        exact ih hrest hc2

/-- C5 (confirmed): in a directory (its `ReadDir` listing being sorted
by name) containing both the file `composer.json` and the file
`package.json`, with the composer and npm tasks available, the composer
task is the one that fires, on `composer.json`, and it is the only
action the walk of that directory runs. -/
theorem composer_precedence_both_manifests (w : World) (path : String)
    (entries : List Entry) (hr : w.readDirOk path = true) (hs : sortedByName entries)
    (hc : Entry.file "composer.json" ∈ entries)
    (_hp : Entry.file "package.json" ∈ entries) :
    firstMatch [composerRunner, npmRunner] entries
      = some ("composer.json", composerRunner) ∧
    Walk w [composerRunner, npmRunner] path entries
      = ((composerRunner.Run w (joinPath path "composer.json")).1,
         .readDir path :: .stdout (joinPath path "composer.json")
           :: (composerRunner.Run w (joinPath path "composer.json")).2) := by
  have h1 := firstMatch_sorted_composer entries hs hc
  exact ⟨h1, walk_matched w [composerRunner, npmRunner] path entries "composer.json"
    composerRunner hr h1⟩

/-- Witness for C5 at a concrete sorted directory listing. -/
theorem composer_precedence_both_manifests_witness :
    sortedByName [Entry.file "composer.json", Entry.file "package.json"] ∧
    Walk wBase [composerRunner, npmRunner] "/r"
        [.file "composer.json", .file "package.json"]
      = (none, [.readDir "/r", .stdout "/r/composer.json", .removeAll "/r/vendor"]) := by
  have hs : sortedByName [Entry.file "composer.json", Entry.file "package.json"] := by
    simp [sortedByName, Entry.name]
    decide
  have h := composer_precedence_both_manifests wBase "/r"
    [.file "composer.json", .file "package.json"] rfl hs (by simp) (by simp)
  exact ⟨hs, h.2.trans (by decide)⟩
/-- C8 (confirmed): after a clean non-dry traversal the program runs the
five cache-clearing commands unconditionally, exactly as the fail-fast
sequential execution of the fixed list (go build cache, go module
cache, go test cache, composer cache, npm cache): if all succeed the
exit code is 0 and all five were invoked; on the first failing command
the program exits 1, reports that command on standard error, and the
remaining clears are never attempted. -/
theorem finalizer_fail_fast (w : World) (rootPath : String) (root : List Entry)
    (evs : List Event) (hne : (buildTasks w false).isEmpty = false)
    (hW : Walk w (buildTasks w false) rootPath root = (none, evs)) :
    ((failFastSpec w (finalizerCmds w)).1 = none →
      mainProg w false rootPath root
        = (0, evs ++ (failFastSpec w (finalizerCmds w)).2)) ∧
    (∀ c, (failFastSpec w (finalizerCmds w)).1 = some (.cmdFailed c) →
      mainProg w false rootPath root
        = (1, evs ++ (failFastSpec w (finalizerCmds w)).2
            ++ [.stderr (finalizerPhaseMsg c ++ renderAppError (.cmdFailed c) ++ "\n")])) := by
  unfold mainProg
  simp only [hne, Bool.false_eq_true, if_false, hW]
  by_cases h1 : w.cmdOk [appName w "go", "clean", "-cache"] none
  · by_cases h2 : w.cmdOk [appName w "go", "clean", "-modcache"] none
    · by_cases h3 : w.cmdOk [appName w "go", "clean", "-testcache"] none
      · by_cases h4 : w.cmdOk ["composer", "--no-interaction", "clear-cache"] none
        · by_cases h5 : w.cmdOk ["npm", "cache", "clean", "--force"] none
          · constructor
            · intro _
              simp [clearCachesGo, clearCachesComposer, clearCachesNpm, failFastSpec,
                finalizerCmds, h1, h2, h3, h4, h5]
            · intro c hc
              simp [failFastSpec, finalizerCmds, h1, h2, h3, h4, h5] at hc
          · constructor
            · intro hc
              simp [failFastSpec, finalizerCmds, h1, h2, h3, h4, h5] at hc
            · intro c hc
              simp [failFastSpec, finalizerCmds, h1, h2, h3, h4, h5] at hc
              subst hc
              simp [clearCachesGo, clearCachesComposer, clearCachesNpm, failFastSpec,
                finalizerCmds, finalizerPhaseMsg, renderAppError, h1, h2, h3, h4, h5]
        · constructor
          · intro hc
            simp [failFastSpec, finalizerCmds, h1, h2, h3, h4] at hc
          · intro c hc
            simp [failFastSpec, finalizerCmds, h1, h2, h3, h4] at hc
            subst hc
            simp [clearCachesGo, clearCachesComposer, failFastSpec, finalizerCmds,
              finalizerPhaseMsg, renderAppError, h1, h2, h3, h4]
      · constructor
        · intro hc
          simp [failFastSpec, finalizerCmds, h1, h2, h3] at hc
        · intro c hc
          simp [failFastSpec, finalizerCmds, h1, h2, h3] at hc
          subst hc
          simp [clearCachesGo, failFastSpec, finalizerCmds, finalizerPhaseMsg,
            renderAppError, h1, h2, h3]
    · constructor
      · intro hc
        simp [failFastSpec, finalizerCmds, h1, h2] at hc
      · intro c hc
        simp [failFastSpec, finalizerCmds, h1, h2] at hc
        subst hc
        simp [clearCachesGo, failFastSpec, finalizerCmds, finalizerPhaseMsg,
          renderAppError, h1, h2]
  · constructor
    · intro hc
      simp [failFastSpec, finalizerCmds, h1] at hc
    · intro c hc
      simp [failFastSpec, finalizerCmds, h1] at hc
      subst hc
      simp [clearCachesGo, failFastSpec, finalizerCmds, finalizerPhaseMsg,
        renderAppError, h1]
/-- Witness for C8: with every command succeeding, the run exits 0 after
appending the whole finalizer trace to the walk's trace. -/
theorem finalizer_fail_fast_witness :
    mainProg wBase false "/r" [.file "a.txt"]
      = (0, [Event.readDir "/r"] ++ (failFastSpec wBase (finalizerCmds wBase)).2) := by
  have hW : Walk wBase (buildTasks wBase false) "/r" [.file "a.txt"]
      = (none, [Event.readDir "/r"]) :=
    (walk_eval wBase (buildTasks wBase false) "/r" [.file "a.txt"] 5 (by decide)).trans
      (by decide)
  exact (finalizer_fail_fast wBase "/r" [.file "a.txt"] [Event.readDir "/r"]
    (by decide) hW).1 (by decide)
